import Mathlib

set_option linter.unusedVariables false

/-!
Verification of the session-restoration core of the imessage-rest-api
repository (src/session.rs) against its natural-language specification.

The embedding models plist documents as a small value type, the on-disk
data directory as a record of optional file contents, the keystore as a
list of imported key records, and each Rust function of session.rs
(migrate, read_hardware, restore_users, setup_push, restore_account,
restore, and the background state-sync task spawned by setup_push) as an
executable Lean function over those types.  External collaborators
(rustpush, the keystore crate, plist serde decoding of foreign structs)
are modelled by small concrete functions, noted at their definitions.
-/

/-- Shallow embedding of the plist document values this program
manipulates: byte data, strings, booleans, arrays and (ordered)
dictionaries. -/
inductive PValue where
  | data (bs : List Nat)
  | str (s : String)
  | boolean (b : Bool)
  | arr (vs : List PValue)
  | dict (entries : List (String × PValue))

abbrev Dict := List (String × PValue)

/-- First-match lookup in a plist dictionary, as plist Dictionary get. -/
def lookupD : Dict → String → Option PValue
  | [], _ => none
  | (k, v) :: rest, key => if k = key then some v else lookupD rest key

/-- In-place update of the first occurrence of a key, modelling mutation
through Dictionary get_mut.  A missing key leaves the list unchanged. -/
def setD : Dict → String → PValue → Dict
  | [], _, _ => []
  | (k, v) :: rest, key, nv =>
      if k = key then (k, nv) :: rest else (k, v) :: setD rest key nv

/-- A write of one plist document (or marker file) to a file of the data
directory: file name paired with the written content. -/
abbrev FileWrite := String × PValue

-- RSA signature padding schemes of the external keystore crate.
inductive KPadding where
  | pkcs1
  | pss
deriving DecidableEq

-- Digest algorithms of the external keystore crate.
inductive KDigest where
  | sha1
  | sha256
deriving DecidableEq

/-- One key imported into the keystore: handle, bit size, raw material
and the access rules it was imported with. -/
structure KeyRecord where
  handle : String
  bits : Nat
  material : List Nat
  signaturePadding : List KPadding
  digests : List KDigest
  canSign : Bool
deriving DecidableEq

abbrev Keystore := List KeyRecord

/-- RsaKey::import with the fixed access rules used by migrate:
PKCS#1 v1.5 signature padding, SHA-1 digest, signing permitted.
The external keystore import is modelled as always succeeding (the Rust
code unwraps it with expect). -/
def importRsa (ks : Keystore) (handle : String) (bits : Nat)
    (material : List Nat) : Keystore :=
  ks ++ [{ handle := handle, bits := bits, material := material,
           signaturePadding := [.pkcs1], digests := [.sha1], canSign := true }]

/-- The key record produced by importing the device activation key. -/
def activationRecord (serial : String) (cert : List Nat) : KeyRecord :=
  { handle := "activation:" ++ serial, bits := 1024, material := cert,
    signaturePadding := [.pkcs1], digests := [.sha1], canSign := true }

/-- The key record produced by importing a per-user auth key. -/
def idsRecord (uid : String) (cert : List Nat) : KeyRecord :=
  { handle := "ids:" ++ uid, bits := 2048, material := cert,
    signaturePadding := [.pkcs1], digests := [.sha1], canSign := true }

/-- The decoded JoinedOSConfig: a tagged variant (MacOS or Relay) with
the serial number that get_serial_number reports.  The fields of the
external MacOSConfig/RelayConfig beyond the tag and serial are not read
by session.rs and are left out of the model. -/
structure OSConf where
  isMac : Bool
  serial : String
deriving DecidableEq

/-- Serial number read out of an os_config dictionary (model of the
external get_serial_number on the decoded config). -/
def serialOf (d : Dict) : String :=
  match lookupD d "serial" with
  | some (.str s) => s
  | _ => ""

/-- Decoding a plist value as JoinedOSConfig (serde with tag "type",
variants MacOS and Relay).  Decoding of the external per-variant config
bodies is modelled as succeeding whenever the tag matches. -/
def decodeOSConf : PValue → Option OSConf
  | .dict d =>
    match lookupD d "type" with
    | some (.str "MacOS") => some { isMac := true, serial := serialOf d }
    | some (.str "Relay") => some { isMac := false, serial := serialOf d }
    | _ => none
  | _ => none

/-- Model of the external rustpush IDSNGMIdentity: decoding it from a
plist dictionary and re-serializing to canonical bytes.  Decode succeeds
when the dictionary carries the key material; save returns the canonical
byte form. -/
def identityFromDict (d : Dict) : Option (List Nat) :=
  match lookupD d "key" with
  | some (.data bs) => some bs
  | _ => none

/-- The on-disk data directory: contents of the files session.rs reads
and writes.  none models an absent (or unparsable) file. -/
structure FS where
  hw : Option PValue
  id : Option PValue
  gsa : Option PValue
  incidentPresent : Bool
  idCacheOk : Bool

/-- The result of one migrate run: the resulting directory contents, the
keystore after imports, the file writes performed, and the returned
changed flag. -/
structure MigrateOut where
  fs : FS
  ks : Keystore
  writes : List FileWrite
  ret : Bool

/-- The push-keypair branch of migrate (session.rs lines 158-180): when
push.keypair.private holds raw Data, import it as the 1024-bit activation
key and replace the field with the handle string.  The write performed
there serializes the inner keypair dictionary (the shadowed `item` of the
Rust source), not the whole document. -/
def hwPushStep (item : Dict) (serial : String) (ks : Keystore) :
    Dict × Keystore × List FileWrite :=
  match lookupD item "push" with
  | some (.dict pushd) =>
    match lookupD pushd "keypair" with
    | some (.dict kp) =>
      match lookupD kp "private" with
      | some (.data cert) =>
        let kp' := setD kp "private" (.str ("activation:" ++ serial))
        (setD item "push" (.dict (setD pushd "keypair" (.dict kp'))),
         importRsa ks ("activation:" ++ serial) 1024 cert,
         [("hw_info.plist", .dict kp')])
      | _ => (item, ks, [])
    | _ => (item, ks, [])
  | _ => (item, ks, [])

/-- The identity branch of migrate (session.rs lines 183-190): a
dictionary-form identity blob is decoded (panicking when it does not
parse) and re-serialized to canonical Data, writing the whole document.
Returns the final on-disk hw_info.plist content (the last write wins),
the keystore, and the writes performed. -/
def identityStep (item : Dict) (ks : Keystore) (w : List FileWrite)
    (orig : Option PValue) :
    Except String (Option PValue × Keystore × List FileWrite) :=
  match lookupD item "identity" with
  | some (.dict idd) =>
    match identityFromDict idd with
    | none => .error "NGM Identity parse"
    | some bs =>
      let item2 := setD item "identity" (.data bs)
      .ok (some (.dict item2), ks, w ++ [("hw_info.plist", .dict item2)])
  | _ =>
    match w.getLast? with
    | some ww => .ok (some ww.2, ks, w)
    | none => .ok (orig, ks, w)

/-- The hw_info.plist pass of migrate (session.rs lines 155-191).  The
file is processed only when it parses as a dictionary; an os_config that
is present but does not decode panics (expect "got os "). -/
def migrateHw (hw : Option PValue) (ks : Keystore) :
    Except String (Option PValue × Keystore × List FileWrite) :=
  match hw with
  | some (.dict item0) =>
    match lookupD item0 "os_config" with
    | some v =>
      match decodeOSConf v with
      | none => .error "got os "
      | some conf =>
        let s := hwPushStep item0 conf.serial ks
        identityStep s.1 s.2.1 s.2.2 hw
    | none => identityStep item0 ks [] hw
  | _ => .ok (hw, ks, [])

/-- The auth_keypair branch for one user (session.rs lines 203-223):
raw Data private bytes are imported as the 2048-bit ids key, the field is
replaced with the handle string, and the modified flag is set. -/
def authStep (user : Dict) (uid : String) (ks : Keystore) :
    Dict × Keystore × Bool :=
  match lookupD user "auth_keypair" with
  | some (.dict akp) =>
    match lookupD akp "private" with
    | some (.data cert) =>
      (setD user "auth_keypair"
         (.dict (setD akp "private" (.str ("ids:" ++ uid)))),
       importRsa ks ("ids:" ++ uid) 2048 cert, true)
    | _ => (user, ks, false)
  | _ => (user, ks, false)

/-- One registration service entry (session.rs lines 226-237): the value
must be a dictionary (as_dictionary_mut().unwrap() panics otherwise); a
raw Data id_keypair private is replaced by the handle string.  The
modified flag is not touched here, exactly as in the source. -/
def migrateService (uid : String) : PValue → Except String PValue
  | .dict svc =>
    match lookupD svc "id_keypair" with
    | some (.dict kp) =>
      match lookupD kp "private" with
      | some (.data _) =>
        .ok (.dict (setD svc "id_keypair"
          (.dict (setD kp "private" (.str ("ids:" ++ uid))))))
      | _ => .ok (.dict svc)
    | _ => .ok (.dict svc)
  | _ => .error "registration service not a dictionary"

/-- The values_mut loop over the registration dictionary of one user. -/
def migrateReg (uid : String) : Dict → Except String Dict
  | [] => .ok []
  | (k, v) :: rest =>
    match migrateService uid v with
    | .error e => .error e
    | .ok v' =>
      match migrateReg uid rest with
      | .error e => .error e
      | .ok rest' => .ok ((k, v') :: rest')

/-- Processing of one user dictionary of id.plist (session.rs lines
196-240).  A missing or non-string user_id panics (unwrap). -/
def migrateUser (user : Dict) (ks : Keystore) :
    Except String (Dict × Keystore × Bool) :=
  match lookupD user "user_id" with
  | some (.str uid) =>
    let a := authStep user uid ks
    match lookupD a.1 "registration" with
    | some (.dict reg) =>
      match migrateReg uid reg with
      | .error e => .error e
      | .ok reg' => .ok (setD a.1 "registration" (.dict reg'), a.2.1, a.2.2)
    | _ => .ok a
  | _ => .error "user_id missing or not a string"

/-- The loop over all users of id.plist, accumulating the modified flag. -/
def migrateUsers : List Dict → Keystore →
    Except String (List Dict × Keystore × Bool)
  | [], ks => .ok ([], ks, false)
  | u :: rest, ks =>
    match migrateUser u ks with
    | .error e => .error e
    | .ok (u', ks₁, m₁) =>
      match migrateUsers rest ks₁ with
      | .error e => .error e
      | .ok (rest', ks₂, m₂) => .ok (u' :: rest', ks₂, m₁ || m₂)

/-- Decoding id.plist as Vec of Dictionary (plist from_file): the content
must be an array whose elements are all dictionaries. -/
def decodeDicts : Option PValue → Option (List Dict)
  | some (.arr vs) => vs.mapM fun v =>
      match v with
      | .dict d => some d
      | _ => none
  | _ => none

/-- Serialization of the user list written back to id.plist. -/
def encodeUsers (us : List Dict) : PValue :=
  .arr (us.map PValue.dict)

/-- The migrate function of session.rs (lines 151-250): the hw_info.plist
pass, then the id.plist pass, saving id.plist only when the modified flag
was set, and finally returning false.  Panics of the Rust code are
modelled as Except.error. -/
def migrate (fs : FS) (ks : Keystore) : Except String MigrateOut :=
  match migrateHw fs.hw ks with
  | .error e => .error e
  | .ok (hw', ks₁, w₁) =>
    match decodeDicts fs.id with
    | none => .ok ⟨{ fs with hw := hw' }, ks₁, w₁, false⟩
    | some users =>
      match migrateUsers users ks₁ with
      | .error e => .error e
      | .ok (users', ks₂, modified) =>
        if modified then
          .ok ⟨{ fs with hw := hw', id := some (encodeUsers users') }, ks₂,
               w₁ ++ [("id.plist", encodeUsers users')], false⟩
        else
          .ok ⟨{ fs with hw := hw' }, ks₂, w₁, false⟩

/-- The decoded SavedHardwareState of session.rs: the opaque APS push
state, the identity blob bytes (serde bin_deserialize requires a Data
value) and the decoded os_config.  Decoding the external APSState payload
is modelled as accepting any present value. -/
structure SavedHW where
  push : PValue
  identity : List Nat
  osConfig : OSConf

/-- Decoding hw_info.plist as SavedHardwareState (read_hardware,
session.rs lines 252-256); any failure yields none. -/
def decodeHW : Option PValue → Option SavedHW
  | some (.dict d) =>
    match lookupD d "push" with
    | some p =>
      match lookupD d "identity" with
      | some (.data bs) =>
        match lookupD d "os_config" with
        | some v =>
          match decodeOSConf v with
          | some c => some ⟨p, bs, c⟩
          | none => none
        | none => none
      | _ => none
    | none => none
  | _ => none

/-- Serialization of an os_config back to a plist value. -/
def encodeOSConf (c : OSConf) : PValue :=
  .dict [("type", .str (if c.isMac then "MacOS" else "Relay")),
         ("serial", .str c.serial)]

/-- Serialization of a full SavedHardwareState document, as written by
setup_push and by the background state-sync task. -/
def encodeHW (h : SavedHW) : PValue :=
  .dict [("push", h.push), ("identity", .data h.identity),
         ("os_config", encodeOSConf h.osConfig)]

/-- Decoding id.plist as a user-record list (restore_users, session.rs
lines 258-262).  The external IDSUser serde decode is approximated by
the fields this repository reads: an array of dictionaries, each with a
string user_id. -/
def decodeUsers : Option PValue → Option (List Dict)
  | some (.arr vs) => vs.mapM fun v =>
      match v with
      | .dict d =>
        match lookupD d "user_id" with
        | some (.str _) => some d
        | _ => none
      | _ => none
  | _ => none

/-- The decoded GSAConfig of session.rs: username, keystore-encrypted
password, and the optional postdata_done flag (a missing key decodes to
none, serde Option behaviour). -/
structure GSAConfig where
  username : String
  encryptedPassword : List Nat
  postdataDone : Option Bool
deriving DecidableEq

/-- Decoding gsa.plist as GSAConfig. -/
def decodeGSA : Option PValue → Option GSAConfig
  | some (.dict d) =>
    match lookupD d "username" with
    | some (.str u) =>
      match lookupD d "encrypted_password" with
      | some (.data ep) =>
        match lookupD d "postdata_done" with
        | none => some ⟨u, ep, none⟩
        | some (.boolean b) => some ⟨u, ep, some b⟩
        | some _ => none
      | _ => none
    | _ => none
  | _ => none

/-- Serialization of a GSAConfig back to gsa.plist. -/
def encodeGSA (g : GSAConfig) : PValue :=
  .dict ([("username", .str g.username),
          ("encrypted_password", .data g.encryptedPassword)] ++
    match g.postdataDone with
    | some b => [("postdata_done", .boolean b)]
    | none => [])

/-- Events observed during a restoration: construction of the push
connection, of the messaging client, of the anisette client, and the
remote postdata update (recording the discarded result of the external
call). -/
inductive REvent where
  | setupPush
  | makeIMClient
  | makeAnisette
  | updatePostdata (res : Except String Unit)

/-- restore_account (session.rs lines 382-411): decode gsa.plist (a
failure returns none early); when the stored postdata_done flag is
absent, perform the remote update (its result is discarded), set the
flag to true and persist.  Returns the events, the writes, the new
gsa.plist content and the Option result.  The external apple-account
construction and the keystore password decrypt (whose Result is turned
into an Option and stored) are modelled as succeeding. -/
def restore_account (gsa : Option PValue) (pd : Except String Unit) :
    List REvent × List FileWrite × Option PValue × Option Unit :=
  match decodeGSA gsa with
  | none => ([], [], gsa, none)
  | some st =>
    match st.postdataDone with
    | none =>
      let st' : GSAConfig := { st with postdataDone := some true }
      ([.updatePostdata pd], [("gsa.plist", encodeGSA st')],
       some (encodeGSA st'), some ())
    | some _ => ([], [], gsa, some ())

/-- Outcome of the external APSConnectionResource::new call: the live
connection state observable afterwards and the optional establishment
error. -/
structure ConnOutcome where
  live : PValue
  err : Option String

/-- setup_push (session.rs lines 335-380), immediate part: establish the
connection, and write a complete fresh SavedHardwareState (current live
push state, the given os_config, the serialized identity) to
hw_info.plist exactly when no error was reported.  Returns the writes
and the error.  The spawned background task is modelled separately by
syncTask. -/
def setup_push (conf : OSConf) (idBytes : List Nat) (prev : Option PValue)
    (conn : ConnOutcome) : List FileWrite × Option String :=
  ((if conn.err = none
    then [("hw_info.plist", encodeHW ⟨conn.live, idBytes, conf⟩)]
    else []), conn.err)

/-- One reception on the broadcast channel of regeneration signals, as
seen by the background task: a signal (carrying the live connection
state when the weak reference still upgrades, none when it does not),
a lagged report, or channel closure. -/
inductive RecvRes where
  | sig (upgraded : Option PValue)
  | lagged (n : Nat)
  | closed

/-- The background state-sync task spawned by setup_push (session.rs
lines 356-377), run over a finite prefix of channel receptions: on each
signal with a live upgrade it writes a complete fresh SavedHardwareState;
on a failed upgrade or channel closure it exits the loop; on lag it
continues without writing.  Returns the writes performed and whether the
loop exited (true) or is still waiting for more receptions (false). -/
def syncTask (conf : OSConf) (idBytes : List Nat) :
    List RecvRes → List FileWrite × Bool
  | [] => ([], false)
  | .sig (some live) :: rest =>
    let r := syncTask conf idBytes rest
    (("hw_info.plist", encodeHW ⟨live, idBytes, conf⟩) :: r.1, r.2)
  | .sig none :: _ => ([], true)
  | .lagged _ :: rest => syncTask conf idBytes rest
  | .closed :: _ => ([], true)

/-- The incident-marker side effect of make_imclient (session.rs lines
309-316): when the incident marker is absent, create it, first creating
incident_affected when the old key cache parses.  Marker files are
zero-byte; their content is modelled as empty Data. -/
def incidentWrites (fs : FS) : List FileWrite :=
  if fs.incidentPresent then []
  else
    (if fs.idCacheOk then [("incident_affected", .data [])] else []) ++
    [("incident", .data [])]

/-- The result of one restore run: the construction/update events in
order, the file writes performed, and the overall result. -/
structure RestoreOut where
  trace : List REvent
  writes : List FileWrite
  result : Except String Unit

/-- The top-level restore flow (session.rs lines 415-465): run migrate
inside the panic-isolation boundary (a panic is converted to the error
"Migration panicked"); require a decodable SavedHardwareState and user
list from the migrated directory, failing otherwise before anything is
constructed; then set up the push connection (a reported error is only a
warning), construct the messaging client, the anisette client, restore
the account (its result discarded), and return successfully.  The
external connection outcome and the external postdata result are inputs. -/
def restore (fs : FS) (ks : Keystore) (conn : ConnOutcome)
    (pd : Except String Unit) : RestoreOut :=
  match migrate fs ks with
  | .error _ => ⟨[], [], .error "Migration panicked"⟩
  | .ok out =>
    match decodeHW out.fs.hw with
    | none => ⟨[], out.writes, .error "No hw_info.plist found"⟩
    | some hardware =>
      match decodeUsers out.fs.id with
      | none => ⟨[], out.writes, .error "No id.plist found"⟩
      | some _users =>
        let p := setup_push hardware.osConfig hardware.identity
          (some hardware.push) conn
        let acc := restore_account out.fs.gsa pd
        ⟨[.setupPush, .makeIMClient, .makeAnisette] ++ acc.1,
         out.writes ++ p.1 ++ incidentWrites out.fs ++ acc.2.1,
         .ok ()⟩

/-! ## Concrete fixtures used by counterexamples and witnesses -/

/-- A decodable os_config value with serial number S. -/
def osC : PValue := .dict [("type", .str "MacOS"), ("serial", .str "S")]

/-- A data directory whose hw_info.plist is not decodable as a
SavedHardwareState (the identity blob is still in dictionary form), while
id.plist is decodable. -/
def c1fs : FS :=
  { hw := some (.dict [("push", .dict []),
      ("identity", .dict [("key", .data [7])]), ("os_config", osC)]),
    id := some (.arr [.dict [("user_id", .str "u")]]),
    gsa := none, incidentPresent := true, idCacheOk := false }

/-- A data directory with both plists absent. -/
def w1fs : FS :=
  { hw := none, id := none, gsa := none,
    incidentPresent := true, idCacheOk := false }

/-- A user record still holding legacy raw auth-key bytes. -/
def c2user : Dict :=
  [("user_id", .str "u1"), ("auth_keypair", .dict [("private", .data [9])])]

/-- A data directory whose id.plist holds one user with a legacy raw
auth key, so migrate rewrites id.plist. -/
def c2fs : FS :=
  { hw := none, id := some (.arr [.dict c2user]),
    gsa := none, incidentPresent := true, idCacheOk := false }

/-- The same user after migration: the private field holds the handle. -/
def c2userAfter : Dict :=
  [("user_id", .str "u1"),
   ("auth_keypair", .dict [("private", .str "ids:u1")])]

/-- The full result of running migrate over c2fs with an empty keystore. -/
def c2out : MigrateOut :=
  { fs := { hw := none, id := some (.arr [.dict c2userAfter]),
            gsa := none, incidentPresent := true, idCacheOk := false },
    ks := [idsRecord "u1" [9]],
    writes := [("id.plist", .arr [.dict c2userAfter])],
    ret := false }

/-- A push.keypair dictionary that itself contains os_config and nested
push.keypair keys: after the first migrate run clobbers hw_info.plist
with this inner dictionary, a second run finds legacy material again. -/
def c3kp : Dict :=
  [("private", .data [1]), ("os_config", osC),
   ("push", .dict [("keypair", .dict [("private", .data [2])])])]

/-- A data directory on which migrate is not idempotent. -/
def c3fs : FS :=
  { hw := some (.dict [("os_config", osC),
      ("push", .dict [("keypair", .dict c3kp)])]),
    id := none, gsa := none, incidentPresent := true, idCacheOk := false }

/-- A data directory with legacy raw key bytes in both locations:
the device activation key and the per-user auth key. -/
def c4fs : FS :=
  { hw := some (.dict [("os_config", osC),
      ("push", .dict [("keypair", .dict [("private", .data [1, 2])])])]),
    id := some (.arr [.dict c2user]),
    gsa := none, incidentPresent := true, idCacheOk := false }

/-- The full result of running migrate over c4fs with an empty keystore
(note that hw_info.plist was clobbered down to the keypair dictionary). -/
def c4out : MigrateOut :=
  { fs := { hw := some (.dict [("private", .str "activation:S")]),
            id := some (.arr [.dict c2userAfter]),
            gsa := none, incidentPresent := true, idCacheOk := false },
    ks := [activationRecord "S" [1, 2], idsRecord "u1" [9]],
    writes := [("hw_info.plist", .dict [("private", .str "activation:S")]),
               ("id.plist", .arr [.dict c2userAfter])],
    ret := false }

/-- A data directory whose hw_info.plist carries an os_config that does
not decode, so migrate panics (expect "got os "). -/
def c5fs : FS :=
  { hw := some (.dict [("os_config", .data [])]),
    id := none, gsa := none, incidentPresent := true, idCacheOk := false }

/-- A fully migrated, decodable data directory. -/
def c6fs : FS :=
  { hw := some (.dict [("push", .dict [("keypair",
        .dict [("private", .str "activation:S")])]),
      ("identity", .data [7]), ("os_config", osC)]),
    id := some (.arr [.dict [("user_id", .str "u")]]),
    gsa := none, incidentPresent := true, idCacheOk := false }

/-- A gsa.plist whose postdata_done flag is stored as false. -/
def c7gsa : PValue :=
  .dict [("username", .str "u"), ("encrypted_password", .data [1]),
         ("postdata_done", .boolean false)]

/-- A gsa.plist with no postdata_done flag. -/
def gAbs : PValue :=
  .dict [("username", .str "u"), ("encrypted_password", .data [1])]

/-- The gsa.plist written after the postdata step has completed. -/
def gDone : PValue :=
  .dict [("username", .str "u"), ("encrypted_password", .data [1]),
         ("postdata_done", .boolean true)]

/-- A gsa.plist with no postdata_done flag (second fixture). -/
def g10Abs : PValue :=
  .dict [("username", .str "v"), ("encrypted_password", .data [2])]

/-- The written form of g10Abs once the flag is set. -/
def g10Done : PValue :=
  .dict [("username", .str "v"), ("encrypted_password", .data [2]),
         ("postdata_done", .boolean true)]

/-- A user whose only legacy material sits in a registration sub-key. -/
def c8user : Dict :=
  [("user_id", .str "u1"),
   ("registration", .dict [("madrid",
      .dict [("id_keypair", .dict [("private", .data [3])])])])]

/-- The in-memory form of c8user after the migration pass replaced the
registration private bytes with the handle string. -/
def c8userAfter : Dict :=
  [("user_id", .str "u1"),
   ("registration", .dict [("madrid",
      .dict [("id_keypair", .dict [("private", .str "ids:u1")])])])]

/-- A data directory whose id.plist holds only c8user. -/
def c8fs : FS :=
  { hw := none, id := some (.arr [.dict c8user]),
    gsa := none, incidentPresent := true, idCacheOk := false }

/-! ## Dictionary lemmas -/

theorem lookupD_setD_self {d : Dict} {k : String} {v₀ : PValue} (v : PValue)
    (h : lookupD d k = some v₀) : lookupD (setD d k v) k = some v := by
  induction d with
  | nil => simp [lookupD] at h
  | cons p rest ih =>
    obtain ⟨k₁, v₁⟩ := p
    by_cases hk : k₁ = k
    · simp [lookupD, setD, hk]
    · simp only [lookupD, setD, hk, if_false] at h ⊢
      exact ih h

theorem lookupD_setD_ne {d : Dict} {k k' : String} (v : PValue)
    (h : k' ≠ k) : lookupD (setD d k v) k' = lookupD d k' := by
  induction d with
  | nil => simp [setD]
  | cons p rest ih =>
    obtain ⟨k₁, v₁⟩ := p
    by_cases hk : k₁ = k
    · subst hk
      simp only [setD, if_pos rfl, lookupD]
      rw [if_neg (fun hh => h hh.symm), if_neg (fun hh => h hh.symm)]
    · simp only [setD, if_neg hk, lookupD]
      by_cases hk' : k₁ = k'
      · rw [if_pos hk', if_pos hk']
      · rw [if_neg hk', if_neg hk']
        exact ih

/-! ## Keystore monotonicity and modified-flag characterization -/

theorem authStep_ks_suffix (u : Dict) (uid : String) (ks : Keystore) :
    ∃ t, (authStep u uid ks).2.1 = ks ++ t := by
  cases h1 : lookupD u "auth_keypair" with
  | none => exact ⟨[], by simp [authStep, h1]⟩
  | some v =>
    cases v with
    | data bs => exact ⟨[], by simp [authStep, h1]⟩
    | str s => exact ⟨[], by simp [authStep, h1]⟩
    | boolean b => exact ⟨[], by simp [authStep, h1]⟩
    | arr vs => exact ⟨[], by simp [authStep, h1]⟩
    | dict akp =>
      cases h2 : lookupD akp "private" with
      | none => exact ⟨[], by simp [authStep, h1, h2]⟩
      | some p =>
        cases p with
        | data cert =>
          exact ⟨[idsRecord uid cert], by simp [authStep, h1, h2, importRsa, idsRecord]⟩
        | str s => exact ⟨[], by simp [authStep, h1, h2]⟩
        | boolean b => exact ⟨[], by simp [authStep, h1, h2]⟩
        | arr vs => exact ⟨[], by simp [authStep, h1, h2]⟩
        | dict dd => exact ⟨[], by simp [authStep, h1, h2]⟩

theorem migrateUser_ks_suffix {u : Dict} {ks : Keystore}
    {r : Dict × Keystore × Bool} (h : migrateUser u ks = .ok r) :
    ∃ t, r.2.1 = ks ++ t := by
  cases h0 : lookupD u "user_id" with
  | none => simp [migrateUser, h0] at h
  | some v =>
    cases v with
    | data bs => simp [migrateUser, h0] at h
    | boolean b => simp [migrateUser, h0] at h
    | arr vs => simp [migrateUser, h0] at h
    | dict dd => simp [migrateUser, h0] at h
    | str uid =>
      obtain ⟨t, ht⟩ := authStep_ks_suffix u uid ks
      simp only [migrateUser, h0] at h
      cases hreg : lookupD (authStep u uid ks).1 "registration" with
      | none =>
        simp only [hreg] at h
        cases h
        exact ⟨t, ht⟩
      | some rv =>
        cases rv with
        | data bs => simp only [hreg] at h; cases h; exact ⟨t, ht⟩
        | str s => simp only [hreg] at h; cases h; exact ⟨t, ht⟩
        | boolean b => simp only [hreg] at h; cases h; exact ⟨t, ht⟩
        | arr vs => simp only [hreg] at h; cases h; exact ⟨t, ht⟩
        | dict reg =>
          simp only [hreg] at h
          cases hmr : migrateReg uid reg with
          | error e => simp only [hmr] at h; cases h
          | ok reg' =>
            simp only [hmr] at h
            cases h
            exact ⟨t, ht⟩

theorem migrateUsers_ks_suffix {us : List Dict} {ks : Keystore}
    {r : List Dict × Keystore × Bool} (h : migrateUsers us ks = .ok r) :
    ∃ t, r.2.1 = ks ++ t := by
  induction us generalizing ks r with
  | nil =>
    cases h
    exact ⟨[], by simp⟩
  | cons u rest ih =>
    cases hu : migrateUser u ks with
    | error e => simp [migrateUsers, hu] at h
    | ok q =>
      obtain ⟨u', ks₁, m₁⟩ := q
      cases hr : migrateUsers rest ks₁ with
      | error e => simp [migrateUsers, hu, hr] at h
      | ok q₂ =>
        obtain ⟨us', ks₂, m₂⟩ := q₂
        simp only [migrateUsers, hu, hr] at h
        cases h
        obtain ⟨t₂, ht₂⟩ := ih hr
        obtain ⟨t₁, ht₁⟩ := migrateUser_ks_suffix hu
        simp only at ht₁ ht₂
        exact ⟨t₁ ++ t₂, by rw [ht₂, ht₁, List.append_assoc]⟩

/-- A user record whose auth_keypair still holds raw Data private bytes
(the only condition under which migrate sets the modified flag). -/
def hasLegacyAuth (u : Dict) : Bool :=
  match lookupD u "auth_keypair" with
  | some (.dict akp) =>
    match lookupD akp "private" with
    | some (.data _) => true
    | _ => false
  | _ => false

theorem authStep_modified (u : Dict) (uid : String) (ks : Keystore) :
    (authStep u uid ks).2.2 = hasLegacyAuth u := by
  cases h1 : lookupD u "auth_keypair" with
  | none => simp [authStep, hasLegacyAuth, h1]
  | some v =>
    cases v with
    | data bs => simp [authStep, hasLegacyAuth, h1]
    | str s => simp [authStep, hasLegacyAuth, h1]
    | boolean b => simp [authStep, hasLegacyAuth, h1]
    | arr vs => simp [authStep, hasLegacyAuth, h1]
    | dict akp =>
      cases h2 : lookupD akp "private" with
      | none => simp [authStep, hasLegacyAuth, h1, h2]
      | some p =>
        cases p with
        | data cert => simp [authStep, hasLegacyAuth, h1, h2]
        | str s => simp [authStep, hasLegacyAuth, h1, h2]
        | boolean b => simp [authStep, hasLegacyAuth, h1, h2]
        | arr vs => simp [authStep, hasLegacyAuth, h1, h2]
        | dict dd => simp [authStep, hasLegacyAuth, h1, h2]

theorem migrateUser_modified {u : Dict} {ks : Keystore}
    {r : Dict × Keystore × Bool} (h : migrateUser u ks = .ok r) :
    r.2.2 = hasLegacyAuth u := by
  cases h0 : lookupD u "user_id" with
  | none => simp [migrateUser, h0] at h
  | some v =>
    cases v with
    | data bs => simp [migrateUser, h0] at h
    | boolean b => simp [migrateUser, h0] at h
    | arr vs => simp [migrateUser, h0] at h
    | dict dd => simp [migrateUser, h0] at h
    | str uid =>
      have hm := authStep_modified u uid ks
      simp only [migrateUser, h0] at h
      cases hreg : lookupD (authStep u uid ks).1 "registration" with
      | none => simp only [hreg] at h; cases h; exact hm
      | some rv =>
        cases rv with
        | data bs => simp only [hreg] at h; cases h; exact hm
        | str s => simp only [hreg] at h; cases h; exact hm
        | boolean b => simp only [hreg] at h; cases h; exact hm
        | arr vs => simp only [hreg] at h; cases h; exact hm
        | dict reg =>
          simp only [hreg] at h
          cases hmr : migrateReg uid reg with
          | error e => simp only [hmr] at h; cases h
          | ok reg' => simp only [hmr] at h; cases h; exact hm

theorem migrateUsers_modified {us : List Dict} {ks : Keystore}
    {r : List Dict × Keystore × Bool} (h : migrateUsers us ks = .ok r) :
    r.2.2 = us.any hasLegacyAuth := by
  induction us generalizing ks r with
  | nil => cases h; simp
  | cons u rest ih =>
    cases hu : migrateUser u ks with
    | error e => simp [migrateUsers, hu] at h
    | ok q =>
      obtain ⟨u', ks₁, m₁⟩ := q
      cases hr : migrateUsers rest ks₁ with
      | error e => simp [migrateUsers, hu, hr] at h
      | ok q₂ =>
        obtain ⟨us', ks₂, m₂⟩ := q₂
        simp only [migrateUsers, hu, hr] at h
        cases h
        have h₁ := migrateUser_modified hu
        have h₂ := ih hr
        simp only at h₁ h₂
        simp [List.any_cons, h₁, h₂]

/-! ## Legacy-key shape lemmas -/

theorem authStep_legacy {u akp : Dict} {cert : List Nat} (uid : String)
    (ks : Keystore)
    (h1 : lookupD u "auth_keypair" = some (.dict akp))
    (h2 : lookupD akp "private" = some (.data cert)) :
    authStep u uid ks =
      (setD u "auth_keypair"
         (.dict (setD akp "private" (.str ("ids:" ++ uid)))),
       ks ++ [idsRecord uid cert], true) := by
  simp [authStep, h1, h2, importRsa, idsRecord]

theorem migrateUser_legacy {u akp : Dict} {uid : String} {cert : List Nat}
    {ks : Keystore} {r : Dict × Keystore × Bool}
    (h0 : lookupD u "user_id" = some (.str uid))
    (h1 : lookupD u "auth_keypair" = some (.dict akp))
    (h2 : lookupD akp "private" = some (.data cert))
    (h : migrateUser u ks = .ok r) :
    r.2.2 = true ∧ idsRecord uid cert ∈ r.2.1 ∧
      ∃ akp', lookupD r.1 "auth_keypair" = some (.dict akp') ∧
        lookupD akp' "private" = some (.str ("ids:" ++ uid)) := by
  have ha := authStep_legacy uid ks h1 h2
  simp only [migrateUser, h0, ha] at h
  have hmem : idsRecord uid cert ∈ ks ++ [idsRecord uid cert] := by simp
  have hlook :
      lookupD (setD u "auth_keypair"
        (.dict (setD akp "private" (.str ("ids:" ++ uid))))) "auth_keypair" =
      some (.dict (setD akp "private" (.str ("ids:" ++ uid)))) :=
    lookupD_setD_self _ h1
  have hpriv :
      lookupD (setD akp "private" (.str ("ids:" ++ uid))) "private" =
      some (.str ("ids:" ++ uid)) :=
    lookupD_setD_self _ h2
  cases hreg : lookupD (setD u "auth_keypair"
      (.dict (setD akp "private" (.str ("ids:" ++ uid))))) "registration" with
  | none =>
    simp only [hreg] at h
    cases h
    exact ⟨rfl, hmem, _, hlook, hpriv⟩
  | some rv =>
    cases rv with
    | data bs => simp only [hreg] at h; cases h; exact ⟨rfl, hmem, _, hlook, hpriv⟩
    | str s => simp only [hreg] at h; cases h; exact ⟨rfl, hmem, _, hlook, hpriv⟩
    | boolean b => simp only [hreg] at h; cases h; exact ⟨rfl, hmem, _, hlook, hpriv⟩
    | arr vs => simp only [hreg] at h; cases h; exact ⟨rfl, hmem, _, hlook, hpriv⟩
    | dict reg =>
      simp only [hreg] at h
      cases hmr : migrateReg uid reg with
      | error e => simp only [hmr] at h; cases h
      | ok reg' =>
        simp only [hmr] at h
        cases h
        refine ⟨rfl, hmem, _, ?_, hpriv⟩
        rw [lookupD_setD_ne _ (by decide)]
        exact hlook

theorem migrateUsers_legacy {us : List Dict} {u akp : Dict} {uid : String}
    {cert : List Nat} {ks : Keystore} {r : List Dict × Keystore × Bool}
    (hmem : u ∈ us)
    (h0 : lookupD u "user_id" = some (.str uid))
    (h1 : lookupD u "auth_keypair" = some (.dict akp))
    (h2 : lookupD akp "private" = some (.data cert))
    (h : migrateUsers us ks = .ok r) :
    idsRecord uid cert ∈ r.2.1 ∧ r.2.2 = true ∧
      ∃ u' ∈ r.1, ∃ akp', lookupD u' "auth_keypair" = some (.dict akp') ∧
        lookupD akp' "private" = some (.str ("ids:" ++ uid)) := by
  induction us generalizing ks r with
  | nil => cases hmem
  | cons v rest ih =>
    cases hu : migrateUser v ks with
    | error e => simp [migrateUsers, hu] at h
    | ok q =>
      obtain ⟨u', ks₁, m₁⟩ := q
      cases hr : migrateUsers rest ks₁ with
      | error e => simp [migrateUsers, hu, hr] at h
      | ok q₂ =>
        obtain ⟨us', ks₂, m₂⟩ := q₂
        simp only [migrateUsers, hu, hr] at h
        cases h
        rcases List.mem_cons.mp hmem with hv | hv
        · subst hv
          obtain ⟨hm₁, hrec, akp', hlook, hpriv⟩ := migrateUser_legacy h0 h1 h2 hu
          obtain ⟨t₂, ht₂⟩ := migrateUsers_ks_suffix hr
          simp only at hm₁ hrec ht₂ ⊢
          refine ⟨?_, by simp [hm₁], u', by simp, akp', hlook, hpriv⟩
          rw [ht₂]
          exact List.mem_append_left _ hrec
        · obtain ⟨hrec, hm₂, u'', hu'', rest_prop⟩ := ih hv hr
          simp only at hrec hm₂ ⊢
          exact ⟨hrec, by simp [hm₂], u'', by simp [hu''], rest_prop⟩

/-! ## hw pass lemmas -/

theorem identityStep_shape {item : Dict} {ks : Keystore} {w : List FileWrite}
    {orig : Option PValue} {r : Option PValue × Keystore × List FileWrite}
    (h : identityStep item ks w orig = .ok r) :
    r.2.1 = ks ∧
      (r.2.2 = w ∨ ∃ c, r.2.2 = w ++ [("hw_info.plist", c)]) := by
  cases hid : lookupD item "identity" with
  | none =>
    simp only [identityStep, hid] at h
    cases hl : w.getLast? with
    | none => simp only [hl] at h; cases h; exact ⟨rfl, Or.inl rfl⟩
    | some ww => simp only [hl] at h; cases h; exact ⟨rfl, Or.inl rfl⟩
  | some v =>
    cases v with
    | data bs =>
      simp only [identityStep, hid] at h
      cases hl : w.getLast? with
      | none => simp only [hl] at h; cases h; exact ⟨rfl, Or.inl rfl⟩
      | some ww => simp only [hl] at h; cases h; exact ⟨rfl, Or.inl rfl⟩
    | str s =>
      simp only [identityStep, hid] at h
      cases hl : w.getLast? with
      | none => simp only [hl] at h; cases h; exact ⟨rfl, Or.inl rfl⟩
      | some ww => simp only [hl] at h; cases h; exact ⟨rfl, Or.inl rfl⟩
    | boolean b =>
      simp only [identityStep, hid] at h
      cases hl : w.getLast? with
      | none => simp only [hl] at h; cases h; exact ⟨rfl, Or.inl rfl⟩
      | some ww => simp only [hl] at h; cases h; exact ⟨rfl, Or.inl rfl⟩
    | arr vs =>
      simp only [identityStep, hid] at h
      cases hl : w.getLast? with
      | none => simp only [hl] at h; cases h; exact ⟨rfl, Or.inl rfl⟩
      | some ww => simp only [hl] at h; cases h; exact ⟨rfl, Or.inl rfl⟩
    | dict idd =>
      cases hdec : identityFromDict idd with
      | none => simp [identityStep, hid, hdec] at h
      | some bs =>
        simp only [identityStep, hid, hdec] at h
        cases h
        exact ⟨rfl, Or.inr ⟨_, rfl⟩⟩

theorem hwPushStep_writes_name (item : Dict) (serial : String) (ks : Keystore) :
    ∀ x ∈ (hwPushStep item serial ks).2.2, x.1 = "hw_info.plist" := by
  cases hp : lookupD item "push" with
  | none => simp [hwPushStep, hp]
  | some pv =>
    cases pv with
    | data bs => simp [hwPushStep, hp]
    | str s => simp [hwPushStep, hp]
    | boolean b => simp [hwPushStep, hp]
    | arr vs => simp [hwPushStep, hp]
    | dict pushd =>
      cases hkp : lookupD pushd "keypair" with
      | none => simp [hwPushStep, hp, hkp]
      | some kv =>
        cases kv with
        | data bs => simp [hwPushStep, hp, hkp]
        | str s => simp [hwPushStep, hp, hkp]
        | boolean b => simp [hwPushStep, hp, hkp]
        | arr vs => simp [hwPushStep, hp, hkp]
        | dict kp =>
          cases hpr : lookupD kp "private" with
          | none => simp [hwPushStep, hp, hkp, hpr]
          | some prv =>
            cases prv with
            | data cert => simp [hwPushStep, hp, hkp, hpr]
            | str s => simp [hwPushStep, hp, hkp, hpr]
            | boolean b => simp [hwPushStep, hp, hkp, hpr]
            | arr vs => simp [hwPushStep, hp, hkp, hpr]
            | dict dd => simp [hwPushStep, hp, hkp, hpr]

theorem migrateHw_writes_name {hw : Option PValue} {ks : Keystore}
    {r : Option PValue × Keystore × List FileWrite}
    (h : migrateHw hw ks = .ok r) :
    ∀ x ∈ r.2.2, x.1 = "hw_info.plist" := by
  have main : ∀ (it : Dict) (ks₀ : Keystore) (w : List FileWrite)
      (orig : Option PValue),
      (∀ x ∈ w, x.1 = "hw_info.plist") →
      identityStep it ks₀ w orig = .ok r →
      ∀ x ∈ r.2.2, x.1 = "hw_info.plist" := by
    intro it ks₀ w orig hw0 hidst x hx
    obtain ⟨-, hcase⟩ := identityStep_shape hidst
    rcases hcase with heq | ⟨c, heq⟩
    · exact hw0 x (heq ▸ hx)
    · rw [heq] at hx
      rcases List.mem_append.mp hx with hx | hx
      · exact hw0 x hx
      · have hxe : x = ("hw_info.plist", c) := by simpa using hx
        simp [hxe]
  cases hw with
  | none => cases h; simp
  | some v =>
    cases v with
    | data bs => cases h; simp
    | str s => cases h; simp
    | boolean b => cases h; simp
    | arr vs => cases h; simp
    | dict item0 =>
      simp only [migrateHw] at h
      cases hoc : lookupD item0 "os_config" with
      | none =>
        simp only [hoc] at h
        exact main item0 ks [] _ (by simp) h
      | some v =>
        simp only [hoc] at h
        cases hdc : decodeOSConf v with
        | none => simp only [hdc] at h; cases h
        | some conf =>
          simp only [hdc] at h
          exact main _ _ _ _ (hwPushStep_writes_name item0 conf.serial ks) h

/-! ## restore_account lemmas -/

theorem restore_account_absent_eq {g : Option PValue} {st : GSAConfig}
    (pd : Except String Unit) (h : decodeGSA g = some st)
    (habs : st.postdataDone = none) :
    restore_account g pd =
      ([.updatePostdata pd],
       [("gsa.plist", encodeGSA { st with postdataDone := some true })],
       some (encodeGSA { st with postdataDone := some true }), some ()) := by
  simp [restore_account, h, habs]

theorem restore_account_done_eq {g : Option PValue} {st : GSAConfig} {b : Bool}
    (pd : Except String Unit) (h : decodeGSA g = some st)
    (hb : st.postdataDone = some b) :
    restore_account g pd = ([], [], g, some ()) := by
  simp [restore_account, h, hb]

theorem decodeGSA_encodeGSA (st : GSAConfig) :
    decodeGSA (some (encodeGSA st)) = some st := by
  obtain ⟨u, ep, pdd⟩ := st
  cases pdd with
  | none => simp [decodeGSA, encodeGSA, lookupD]
  | some b => simp [decodeGSA, encodeGSA, lookupD]

/-! ## Claim theorems -/

/-- Claim C2, counterexample: a migrate run over c2fs imports the legacy
raw auth key, rewrites id.plist, and still returns false, refuting the
claim that such a run returns true. -/
theorem migrate_returns_false_despite_change_cex :
    (migrate c2fs []).map
        (fun o => (o.writes.map Prod.fst, o.ks.map KeyRecord.handle, o.ret)) =
      .ok (["id.plist"], ["ids:u1"], false) := by
  rfl

/-- Claim C2, amended: migrate returns false on every run, also on runs
that import a legacy raw private key and rewrite hw_info.plist or
id.plist; the changed flag of the specification is never computed. -/
theorem migrate_always_returns_false (fs : FS) (ks : Keystore)
    (out : MigrateOut) (h : migrate fs ks = .ok out) : out.ret = false := by
  cases hmh : migrateHw fs.hw ks with
  | error e => simp [migrate, hmh] at h
  | ok p =>
    obtain ⟨hw', ks₁, w₁⟩ := p
    cases hid : decodeDicts fs.id with
    | none =>
      simp only [migrate, hmh, hid] at h
      cases h
      rfl
    | some users =>
      cases hu : migrateUsers users ks₁ with
      | error e => simp [migrate, hmh, hid, hu] at h
      | ok q =>
        obtain ⟨us', ks₂, m⟩ := q
        cases m with
        | false =>
          simp only [migrate, hmh, hid, hu, if_neg] at h
          cases h
          rfl
        | true =>
          simp only [migrate, hmh, hid, hu, if_pos] at h
          cases h
          rfl

/-- Claim C2, witness: the amended theorem applied to the concrete run
over c2fs. -/
theorem migrate_always_returns_false_witness : c2out.ret = false :=
  migrate_always_returns_false c2fs [] c2out rfl

/-- Claim C5: a panic anywhere inside migrate is caught at the
restoration boundary and converted to the error "Migration panicked";
restore performs no construction step (empty trace) and returns that
error. -/
theorem migration_panic_contained_in_restore (fs : FS) (ks : Keystore)
    (conn : ConnOutcome) (pd : Except String Unit) (e : String)
    (h : migrate fs ks = .error e) :
    restore fs ks conn pd = ⟨[], [], .error "Migration panicked"⟩ := by
  simp [restore, h]

/-- Claim C5, witness: the theorem applied to c5fs, whose os_config does
not decode and makes migrate panic. -/
theorem migration_panic_contained_in_restore_witness :
    restore c5fs [] ⟨.dict [], none⟩ (.ok ()) =
      ⟨[], [], .error "Migration panicked"⟩ :=
  migration_panic_contained_in_restore c5fs [] ⟨.dict [], none⟩ (.ok ())
    "got os " rfl

/-- Claim C9: the background state-sync task writes a complete fresh
SavedHardwareState from the live state carried by each received signal,
skips writing and keeps waiting on a lagged report, and exits cleanly
without writing when the channel closes or the weak connection reference
no longer upgrades. -/
theorem sync_task_event_behavior (conf : OSConf) (idBytes : List Nat)
    (live : PValue) (n : Nat) (sigs : List RecvRes) :
    syncTask conf idBytes (.sig (some live) :: sigs) =
      (("hw_info.plist", encodeHW ⟨live, idBytes, conf⟩) ::
         (syncTask conf idBytes sigs).1,
       (syncTask conf idBytes sigs).2) ∧
    syncTask conf idBytes (.lagged n :: sigs) = syncTask conf idBytes sigs ∧
    syncTask conf idBytes (.sig none :: sigs) = ([], true) ∧
    syncTask conf idBytes (.closed :: sigs) = ([], true) ∧
    syncTask conf idBytes [] = ([], false) :=
  ⟨rfl, rfl, rfl, rfl, rfl⟩

/-- Claim C7, counterexample: with the flag stored as false, the claim
says restore_account invokes the remote update and persists true, but
the code (which only checks is_none) performs no event and no write and
leaves the flag false. -/
theorem restore_account_skips_stored_false_flag_cex :
    decodeGSA (some c7gsa) = some ⟨"u", [1], some false⟩ ∧
    restore_account (some c7gsa) (.ok ()) = ([], [], some c7gsa, some ()) :=
  ⟨rfl, rfl⟩

/-- Claim C7, amended: the stored postdataDone flag transitions from
absent to true exactly once: whenever the flag is absent, restore_account
invokes the remote update and persists the flag as true, after which the
update is never invoked again and the flag never changes; whenever the
flag is stored (false or true), the update step is not invoked and the
stored file is left unchanged. -/
theorem postdata_flag_absent_to_true_once (g : Option PValue)
    (st : GSAConfig) (pd₁ pd₂ pd₃ : Except String Unit)
    (h : decodeGSA g = some st) :
    (st.postdataDone = none →
      restore_account g pd₁ =
        ([.updatePostdata pd₁],
         [("gsa.plist", encodeGSA { st with postdataDone := some true })],
         some (encodeGSA { st with postdataDone := some true }), some ()) ∧
      restore_account (some (encodeGSA { st with postdataDone := some true }))
          pd₂ =
        ([], [],
         some (encodeGSA { st with postdataDone := some true }), some ())) ∧
    (∀ b, st.postdataDone = some b →
      restore_account g pd₃ = ([], [], g, some ())) := by
  constructor
  · intro habs
    refine ⟨restore_account_absent_eq pd₁ h habs, ?_⟩
    exact restore_account_done_eq pd₂ (decodeGSA_encodeGSA _) rfl
  · intro b hb
    exact restore_account_done_eq pd₃ h hb

/-- Claim C7, witness: the amended theorem applied to a gsa.plist with
no flag: the first run updates and persists true, the second run is a
no-op. -/
theorem postdata_flag_absent_to_true_once_witness :
    restore_account (some gAbs) (.ok ()) =
      ([.updatePostdata (.ok ())], [("gsa.plist", gDone)],
       some gDone, some ()) ∧
    restore_account (some gDone) (.ok ()) = ([], [], some gDone, some ()) := by
  have h := postdata_flag_absent_to_true_once (some gAbs) ⟨"u", [1], none⟩
    (.ok ()) (.ok ()) (.ok ()) rfl
  exact h.1 rfl

/-- Claim C10: when the flag is absent, the remote update result is
discarded: even a failing update leaves the flag persisted as true, and
a later restoration over the written file never retries the update. -/
theorem postdata_persisted_despite_update_failure (g : Option PValue)
    (st : GSAConfig) (e : String)
    (h : decodeGSA g = some st) (habs : st.postdataDone = none) :
    restore_account g (.error e) =
      ([.updatePostdata (.error e)],
       [("gsa.plist", encodeGSA { st with postdataDone := some true })],
       some (encodeGSA { st with postdataDone := some true }), some ()) ∧
    decodeGSA (some (encodeGSA { st with postdataDone := some true })) =
      some { st with postdataDone := some true } ∧
    ∀ pd, restore_account
        (some (encodeGSA { st with postdataDone := some true })) pd =
      ([], [],
       some (encodeGSA { st with postdataDone := some true }), some ()) := by
  refine ⟨restore_account_absent_eq (.error e) h habs,
    decodeGSA_encodeGSA _, fun pd => ?_⟩
  exact restore_account_done_eq pd (decodeGSA_encodeGSA _) rfl

/-- Claim C10, witness: the theorem applied to g10Abs with a failing
update: the flag is persisted as true and a later run is a no-op. -/
theorem postdata_persisted_despite_update_failure_witness :
    restore_account (some g10Abs) (.error "network down") =
      ([.updatePostdata (.error "network down")],
       [("gsa.plist", g10Done)], some g10Done, some ()) ∧
    restore_account (some g10Done) (.ok ()) =
      ([], [], some g10Done, some ()) := by
  have h := postdata_persisted_despite_update_failure (some g10Abs)
    ⟨"v", [2], none⟩ "network down" rfl rfl
  exact ⟨h.1, h.2.2 (.ok ())⟩

/-- Claim C1, counterexample: c1fs.hw is not decodable as a
SavedHardwareState (the identity blob is in dictionary form), yet
restore does not return an error: the migration pass rewrites the blob
to canonical Data, the file becomes decodable, and setup_push and
make_imclient are invoked. -/
theorem restore_proceeds_despite_undecodable_hw_cex :
    decodeHW c1fs.hw = none ∧
    (restore c1fs [] ⟨.dict [], none⟩ (.ok ())).result = .ok () ∧
    (restore c1fs [] ⟨.dict [], none⟩ (.ok ())).trace =
      [.setupPush, .makeIMClient, .makeAnisette] :=
  ⟨rfl, rfl, rfl⟩

/-- Claim C1, amended: for every data directory in which hw_info.plist
is absent (migration cannot create it), or in which the hw_info.plist
left by the migration pass is not decodable as a SavedHardwareState,
restore returns an error before setup_push or make_imclient is invoked
(the trace is empty); the same holds for id.plist and the user-record
list. -/
theorem restore_fails_before_connection_when_unrestorable (fs : FS)
    (ks : Keystore) (conn : ConnOutcome) (pd : Except String Unit)
    (out : MigrateOut) (hm : migrate fs ks = .ok out) :
    (fs.hw = none → out.fs.hw = none) ∧
    (fs.id = none → out.fs.id = none) ∧
    (decodeHW out.fs.hw = none →
      restore fs ks conn pd =
        ⟨[], out.writes, .error "No hw_info.plist found"⟩) ∧
    (∀ hardware, decodeHW out.fs.hw = some hardware →
      decodeUsers out.fs.id = none →
      restore fs ks conn pd = ⟨[], out.writes, .error "No id.plist found"⟩) := by
  refine ⟨?_, ?_, ?_, ?_⟩
  · intro h0
    have hmw : migrateHw fs.hw ks = .ok (none, ks, []) := by rw [h0]; rfl
    cases hid : decodeDicts fs.id with
    | none =>
      simp only [migrate, hmw, hid] at hm
      cases hm
      rfl
    | some users =>
      cases hu : migrateUsers users ks with
      | error e => simp [migrate, hmw, hid, hu] at hm
      | ok q =>
        obtain ⟨us', ks₂, m⟩ := q
        cases m with
        | false =>
          simp only [migrate, hmw, hid, hu, if_neg] at hm
          cases hm
          rfl
        | true =>
          simp only [migrate, hmw, hid, hu, if_pos] at hm
          cases hm
          rfl
  · intro h0
    have hid : decodeDicts fs.id = none := by rw [h0]; rfl
    cases hmh : migrateHw fs.hw ks with
    | error e => simp [migrate, hmh] at hm
    | ok p =>
      obtain ⟨hw', ks₁, w₁⟩ := p
      simp only [migrate, hmh, hid] at hm
      cases hm
      exact h0
  · intro hd
    simp [restore, hm, hd]
  · intro hardware hd hu
    simp [restore, hm, hd, hu]

/-- Claim C1, witness: the amended theorem applied to a directory with
both files absent: restore fails with the hw error and an empty trace. -/
theorem restore_fails_before_connection_when_unrestorable_witness :
    restore w1fs [] ⟨.dict [], none⟩ (.ok ()) =
      ⟨[], [], .error "No hw_info.plist found"⟩ :=
  (restore_fails_before_connection_when_unrestorable w1fs []
    ⟨.dict [], none⟩ (.ok ()) ⟨w1fs, [], [], false⟩ rfl).2.2.1 rfl

/-- Claim C3 (code bug): migrate is not idempotent.  Over c3fs the first
run imports the activation key and then overwrites hw_info.plist with
the inner keypair dictionary (the shadowed `item` of session.rs line
176) instead of the whole document; the second run, on that clobbered
file, finds legacy material again, imports a second key and writes
again. -/
theorem migrate_second_run_writes_again_at_clobbered_state :
    (migrate c3fs []).map (fun o => o.writes.map Prod.fst) =
      .ok ["hw_info.plist"] ∧
    ((migrate c3fs []).bind (fun o => migrate o.fs o.ks)).map
        (fun o => (o.writes.map Prod.fst, o.ks.map KeyRecord.handle)) =
      .ok (["hw_info.plist"], ["activation:S", "activation:S"]) :=
  ⟨rfl, rfl⟩

/-- Claim C6: setup_push writes one complete fresh SavedHardwareState
(current live push state, the given os_config, the serialized identity)
to hw_info.plist exactly when the connection establishment reported no
error; and also when an error is reported, restore still constructs the
messaging client and returns successfully instead of aborting. -/
theorem setup_push_persists_iff_no_error (fs : FS) (ks : Keystore)
    (conn : ConnOutcome) (pd : Except String Unit) (out : MigrateOut)
    (hardware : SavedHW) (us : List Dict)
    (hm : migrate fs ks = .ok out)
    (hhw : decodeHW out.fs.hw = some hardware)
    (hus : decodeUsers out.fs.id = some us) :
    (setup_push hardware.osConfig hardware.identity (some hardware.push)
        conn).1 =
      (if conn.err = none
       then [("hw_info.plist",
               encodeHW ⟨conn.live, hardware.identity, hardware.osConfig⟩)]
       else []) ∧
    (restore fs ks conn pd).result = .ok () ∧
    REvent.makeIMClient ∈ (restore fs ks conn pd).trace ∧
    (conn.err = none →
      ("hw_info.plist",
        encodeHW ⟨conn.live, hardware.identity, hardware.osConfig⟩) ∈
        (restore fs ks conn pd).writes) := by
  refine ⟨rfl, ?_, ?_, ?_⟩
  · simp [restore, hm, hhw, hus]
  · simp [restore, hm, hhw, hus]
  · intro he
    simp [restore, hm, hhw, hus, setup_push, he]

/-- Claim C6, witness: over the migrated directory c6fs with a failing
connection establishment, setup_push writes nothing, yet restore still
constructs the client and returns ok. -/
theorem setup_push_persists_iff_no_error_witness :
    (setup_push ⟨true, "S"⟩ [7]
        (some (.dict [("keypair", .dict [("private", .str "activation:S")])]))
        ⟨.str "live", some "boom"⟩).1 = [] ∧
    (restore c6fs [] ⟨.str "live", some "boom"⟩ (.ok ())).result = .ok () ∧
    REvent.makeIMClient ∈
      (restore c6fs [] ⟨.str "live", some "boom"⟩ (.ok ())).trace := by
  have h := setup_push_persists_iff_no_error c6fs []
    ⟨.str "live", some "boom"⟩ (.ok ()) ⟨c6fs, [], [], false⟩
    ⟨.dict [("keypair", .dict [("private", .str "activation:S")])], [7],
      ⟨true, "S"⟩⟩
    [[("user_id", .str "u")]] rfl rfl rfl
  exact ⟨by simpa using h.1, h.2.1, h.2.2.1⟩

/-- Claim C8, counterexample: over c8fs the migration pass changes a
per-service registration sub-key record of id.plist in memory (the raw
bytes are replaced by the handle string), yet performs no write at all:
the modified flag is only set in the auth-keypair branch, so the change
is silently dropped, refuting the claim that id.plist is rewritten
whenever a key record changed. -/
theorem id_plist_not_rewritten_on_registration_change_cex :
    (migrate c8fs []).map (fun o => o.writes) = .ok [] ∧
    migrateUsers [c8user] [] = .ok ([c8userAfter], [], false) ∧
    [c8userAfter] ≠ [c8user] := by
  refine ⟨rfl, rfl, ?_⟩
  simp [c8user, c8userAfter]

/-- Claim C8, amended: during a migration pass, id.plist is rewritten
when and only when the pass changed at least one auth-keypair record
(one that still held raw private Data); changes that touch only
per-service registration sub-keys do not mark the pass as modified and
do not trigger a rewrite. -/
theorem id_plist_rewritten_iff_auth_key_changed (fs : FS) (ks : Keystore)
    (out : MigrateOut) (hm : migrate fs ks = .ok out) :
    (∃ w ∈ out.writes, w.1 = "id.plist") ↔
      ∃ us, decodeDicts fs.id = some us ∧ us.any hasLegacyAuth = true := by
  cases hmh : migrateHw fs.hw ks with
  | error e => simp [migrate, hmh] at hm
  | ok p =>
    obtain ⟨hw', ks₁, w₁⟩ := p
    have hn := migrateHw_writes_name hmh
    simp only at hn
    cases hid : decodeDicts fs.id with
    | none =>
      simp only [migrate, hmh, hid] at hm
      cases hm
      constructor
      · rintro ⟨w, hw, hname⟩
        have hh := hn w hw
        rw [hname] at hh
        exact absurd hh (by decide)
      · rintro ⟨us, hus, -⟩
        cases hus
    | some users =>
      cases hu : migrateUsers users ks₁ with
      | error e => simp [migrate, hmh, hid, hu] at hm
      | ok q =>
        obtain ⟨us', ks₂, m⟩ := q
        have hmod := migrateUsers_modified hu
        simp only at hmod
        cases m with
        | true =>
          simp only [migrate, hmh, hid, hu, if_pos] at hm
          cases hm
          constructor
          · intro _
            exact ⟨users, rfl, hmod.symm⟩
          · intro _
            exact ⟨("id.plist", encodeUsers us'), by simp, rfl⟩
        | false =>
          simp only [migrate, hmh, hid, hu, if_neg] at hm
          cases hm
          constructor
          · rintro ⟨w, hw, hname⟩
            have hh := hn w hw
            rw [hname] at hh
            exact absurd hh (by decide)
          · rintro ⟨us, hus, hany⟩
            cases hus
            rw [← hmod] at hany
            cases hany

/-- Claim C8, witness: the amended theorem applied to the run over c2fs,
whose single user has a legacy auth key, concluding that id.plist was
rewritten. -/
theorem id_plist_rewritten_iff_auth_key_changed_witness :
    ∃ w ∈ c2out.writes, w.1 = "id.plist" := by
  have h := id_plist_rewritten_iff_auth_key_changed c2fs [] c2out rfl
  exact h.mpr ⟨[c2user], rfl, rfl⟩

theorem hwPushStep_legacy {item pushd kp : Dict} {cert : List Nat}
    (serial : String) (ks : Keystore)
    (hp : lookupD item "push" = some (.dict pushd))
    (hkp : lookupD pushd "keypair" = some (.dict kp))
    (hpr : lookupD kp "private" = some (.data cert)) :
    hwPushStep item serial ks =
      (setD item "push" (.dict (setD pushd "keypair"
         (.dict (setD kp "private" (.str ("activation:" ++ serial)))))),
       ks ++ [activationRecord serial cert],
       [("hw_info.plist",
         .dict (setD kp "private" (.str ("activation:" ++ serial))))]) := by
  simp [hwPushStep, hp, hkp, hpr, importRsa, activationRecord]

/-- Claim C4: when migrate finds raw private-key bytes in a legacy key
location it imports them into the keystore under the deterministic
handle derived from the owner identifier (activation:serial at 1024 bits
for the device activation key, ids:user_id at 2048 bits for the per-user
auth key), with PKCS#1 v1.5 signature padding and SHA-1 digest rules,
and replaces the bytes field with the handle string (so the record holds
the handle and no longer the raw bytes). -/
theorem migrate_imports_legacy_keys (fs : FS) (ks : Keystore)
    (out : MigrateOut) (hm : migrate fs ks = .ok out) :
    (∀ item v conf pushd kp cert,
      fs.hw = some (.dict item) →
      lookupD item "os_config" = some v →
      decodeOSConf v = some conf →
      lookupD item "push" = some (.dict pushd) →
      lookupD pushd "keypair" = some (.dict kp) →
      lookupD kp "private" = some (.data cert) →
      activationRecord conf.serial cert ∈ out.ks ∧
      ("hw_info.plist",
        .dict (setD kp "private"
          (.str ("activation:" ++ conf.serial)))) ∈ out.writes ∧
      lookupD (setD kp "private" (.str ("activation:" ++ conf.serial)))
        "private" = some (.str ("activation:" ++ conf.serial))) ∧
    (∀ us u uid akp cert,
      decodeDicts fs.id = some us →
      u ∈ us →
      lookupD u "user_id" = some (.str uid) →
      lookupD u "auth_keypair" = some (.dict akp) →
      lookupD akp "private" = some (.data cert) →
      idsRecord uid cert ∈ out.ks ∧
      (∃ usAfter, ("id.plist", encodeUsers usAfter) ∈ out.writes ∧
        ∃ u' ∈ usAfter, ∃ akp',
          lookupD u' "auth_keypair" = some (.dict akp') ∧
          lookupD akp' "private" = some (.str ("ids:" ++ uid)))) := by
  constructor
  · intro item v conf pushd kp cert hfs hoc hdc hp hkp hpr
    have hps := hwPushStep_legacy conf.serial ks hp hkp hpr
    have hmw : migrateHw fs.hw ks =
        identityStep
          (setD item "push" (.dict (setD pushd "keypair"
             (.dict (setD kp "private"
               (.str ("activation:" ++ conf.serial)))))))
          (ks ++ [activationRecord conf.serial cert])
          [("hw_info.plist",
            .dict (setD kp "private" (.str ("activation:" ++ conf.serial))))]
          (some (.dict item)) := by
      rw [hfs]
      simp [migrateHw, hoc, hdc, hps]
    cases hist : identityStep
        (setD item "push" (.dict (setD pushd "keypair"
           (.dict (setD kp "private"
             (.str ("activation:" ++ conf.serial)))))))
        (ks ++ [activationRecord conf.serial cert])
        [("hw_info.plist",
          .dict (setD kp "private" (.str ("activation:" ++ conf.serial))))]
        (some (.dict item)) with
    | error e => simp [migrate, hmw, hist] at hm
    | ok p =>
      obtain ⟨hw', ks₁, w₁⟩ := p
      obtain ⟨hks, hwcase⟩ := identityStep_shape hist
      simp only at hks hwcase
      have hrec : activationRecord conf.serial cert ∈ ks₁ := by
        rw [hks]; simp
      have hwmem : ("hw_info.plist",
          PValue.dict (setD kp "private"
            (.str ("activation:" ++ conf.serial)))) ∈ w₁ := by
        rcases hwcase with hcase | ⟨c, hcase⟩ <;> rw [hcase] <;> simp
      simp only [migrate, hmw, hist] at hm
      cases hid : decodeDicts fs.id with
      | none =>
        simp only [hid] at hm
        cases hm
        exact ⟨hrec, hwmem, lookupD_setD_self _ hpr⟩
      | some users =>
        simp only [hid] at hm
        cases hu : migrateUsers users ks₁ with
        | error e => simp [hu] at hm
        | ok q =>
          obtain ⟨us', ks₂, m⟩ := q
          obtain ⟨t, ht⟩ := migrateUsers_ks_suffix hu
          simp only at ht
          have hrec₂ : activationRecord conf.serial cert ∈ ks₂ := by
            rw [ht]; exact List.mem_append_left _ hrec
          cases m with
          | true =>
            simp only [hu, if_pos] at hm
            cases hm
            exact ⟨hrec₂, List.mem_append_left _ hwmem,
              lookupD_setD_self _ hpr⟩
          | false =>
            simp only [hu, if_neg] at hm
            cases hm
            exact ⟨hrec₂, hwmem, lookupD_setD_self _ hpr⟩
  · intro us u uid akp cert hid hmem h0 h1 h2
    cases hmh : migrateHw fs.hw ks with
    | error e => simp [migrate, hmh] at hm
    | ok p =>
      obtain ⟨hw', ks₁, w₁⟩ := p
      simp only [migrate, hmh, hid] at hm
      cases hu : migrateUsers us ks₁ with
      | error e => simp [hu] at hm
      | ok q =>
        obtain ⟨us', ks₂, m⟩ := q
        obtain ⟨hkrec, hmtrue, u', hu', akp', hprops⟩ :=
          migrateUsers_legacy hmem h0 h1 h2 hu
        simp only at hkrec hmtrue hu'
        subst hmtrue
        simp only [hu, if_pos] at hm
        cases hm
        refine ⟨hkrec, us', by simp, u', hu', akp', hprops⟩

/-- Claim C4, witness: the theorem applied to c4fs, which holds legacy
raw bytes in both locations: the keystore of the run contains the
1024-bit activation record and the 2048-bit ids record with the
PKCS1/SHA-1 rules, and the written records hold the handle strings. -/
theorem migrate_imports_legacy_keys_witness :
    activationRecord "S" [1, 2] ∈ c4out.ks ∧
    ("hw_info.plist", .dict [("private", .str "activation:S")]) ∈
      c4out.writes ∧
    idsRecord "u1" [9] ∈ c4out.ks := by
  have h := migrate_imports_legacy_keys c4fs [] c4out rfl
  have hA := h.1
    [("os_config", osC),
     ("push", .dict [("keypair", .dict [("private", .data [1, 2])])])]
    osC ⟨true, "S"⟩
    [("keypair", .dict [("private", .data [1, 2])])]
    [("private", .data [1, 2])] [1, 2] rfl rfl rfl rfl rfl rfl
  have hB := h.2 [c2user] c2user "u1" [("private", .data [9])] [9]
    rfl (by simp) rfl rfl rfl
  exact ⟨hA.1, hA.2.1, hB.1⟩
